import Mathlib

/-!
Verification of `service-destiny`'s leaderboard module
(`src/service-destiny/src/database/leaderboard.rs`).

The Rust source contains the record type `LeaderboardEntryResult` and two
public operations `titles` and `raids`.  Each operation runs a SQL query
against a `MySqlPool`; on success the fetched rows are returned verbatim,
on failure the error is passed to `database::log_error` and the empty
vector is returned.

Embedding choices:
* `BigDecimal` (arbitrary-precision decimal) is embedded as `ℚ`; the
  `f64` percentage fields are likewise embedded as exact `ℚ` values,
  since the source performs no arithmetic on them.
* The SQL fetch is an external effect; its outcome is passed to the
  embedded functions as an explicit `Except` value.
* `database::log_error` forwards to an external error sink; the sink is
  an explicit parameter `sink : DbErr → σ → σ` over an abstract sink
  state `σ`, threaded through the functions by explicit state passing.
* The ranking computation (sort, standing, percentages) lives in the SQL
  files `queries/leaderboard_titles.sql` / `queries/leaderboard_raids.sql`,
  which are not part of the Rust source tree; it is modelled from the
  specification, see `rank` below.
-/

namespace Destiny

/-- Embeds the Rust struct `LeaderboardEntryResult`.  `amount : BigDecimal`
and the `f64` percentage fields become `ℚ`; `standing : u64` becomes `ℕ`
(the source performs no arithmetic on it, so no wrap-around can occur). -/
structure LeaderboardEntryResult where
  display_name : String
  amount : ℚ
  standing : ℕ
  percent_distance : ℚ
  percent_ranking : ℚ
deriving Repr, DecidableEq

/-- Embeds `sqlx::Error`, the error type of a failed fetch.  The source
never inspects it, so an opaque wrapper around a message suffices. -/
structure DbErr where
  msg : String
deriving Repr, DecidableEq

/-- The outcome of `sqlx::query_file_as!(…).fetch_all(pool).await`:
either the fetched rows or a database error. -/
abbrev FetchOutcome := Except DbErr (List LeaderboardEntryResult)

/-- Embeds `database::log_error`: it hands the failure to the external
error sink exactly once.  The sink's behaviour is the parameter `sink`
acting on an abstract sink state. -/
def log_error {σ : Type} (sink : DbErr → σ → σ) (e : DbErr) (s : σ) : σ :=
  sink e s

/-- Embeds `pub async fn titles(pool: &MySqlPool) -> Vec<LeaderboardEntryResult>`.
The fetch outcome of `queries/leaderboard_titles.sql` is the input
`fetch`; the result is the returned vector paired with the sink state
after the call.  Source: on `Ok(query)` return `query`; otherwise
`database::log_error(query)` then return `Vec::new()`. -/
def titles {σ : Type} (sink : DbErr → σ → σ) (fetch : FetchOutcome) (s : σ) :
    List LeaderboardEntryResult × σ :=
  match fetch with
  | Except.ok query => (query, s)
  | Except.error e => ([], log_error sink e s)

/-- Embeds `pub async fn raids(pool: &MySqlPool) -> Vec<LeaderboardEntryResult>`.
Identical body to `titles` except for the SQL file it fetches
(`queries/leaderboard_raids.sql`), whose outcome is the input `fetch`. -/
def raids {σ : Type} (sink : DbErr → σ → σ) (fetch : FetchOutcome) (s : σ) :
    List LeaderboardEntryResult × σ :=
  match fetch with
  | Except.ok query => (query, s)
  | Except.error e => ([], log_error sink e s)

/-- An error sink instance that counts how often it is invoked. -/
def countingSink : DbErr → ℕ → ℕ := fun _ n => n + 1

/-- Modelled from the spec: the descending-by-amount order used by the
ranking step (spec §4.1, step 1).  `amountDesc a b` means `a` may appear
before `b`: `a`'s amount is at least `b`'s. -/
def amountDesc (a b : String × ℚ) : Prop := b.2 ≤ a.2

instance : DecidableRel amountDesc :=
  fun a b => inferInstanceAs (Decidable (b.2 ≤ a.2))

instance : IsTotal (String × ℚ) amountDesc :=
  ⟨fun a b => le_total b.2 a.2⟩

instance : IsTrans (String × ℚ) amountDesc :=
  ⟨fun _ _ _ h₁ h₂ => le_trans h₂ h₁⟩

/-- Modelled from the spec: step 1 of the ranking algorithm — sort the
pairs descending by amount, ties kept in input order (stable).  Insertion
sort with the total order `amountDesc` is stable in exactly this sense. -/
def sortDesc (l : List (String × ℚ)) : List (String × ℚ) :=
  List.insertionSort amountDesc l

/-- Modelled from the spec: step 2 — `top` is the amount of the first
entry after the descending sort, `0` if the input is empty. -/
def topAmount (l : List (String × ℚ)) : ℚ :=
  (((sortDesc l).head?).map Prod.snd).getD 0

/-- Modelled from the spec: step 4 — the fully-populated entry at
zero-based sorted position `i` of `n` entries with top amount `top`. -/
def rankEntry (n : ℕ) (top : ℚ) (i : ℕ) (p : String × ℚ) :
    LeaderboardEntryResult where
  display_name := p.1
  amount := p.2
  standing := i + 1
  percent_distance := if 0 < top then p.2 / top * 100 else 0
  percent_ranking := ((n : ℚ) - (i : ℚ)) / (n : ℚ) * 100

/-- Map over a list together with the zero-based position of each element,
the position counter starting at `i`. -/
def mapWithIndex {α β : Type} (f : ℕ → α → β) : ℕ → List α → List β
  | _, [] => []
  | i, x :: xs => f i x :: mapWithIndex f (i + 1) xs

/-- Modelled from the spec: the `LeaderboardRanker` operation
`rank(entries)` of §4.1.  The SQL files `queries/leaderboard_titles.sql`
and `queries/leaderboard_raids.sql`, which produce the ranked rows, are
not part of the Rust source tree, so the ranking computation they perform
is taken from the specification: sort descending by amount (stable), then
populate `standing = i + 1`,
`percent_distance = (amount / top) * 100` if `top > 0` else `0`, and
`percent_ranking = ((n - i) / n) * 100`. -/
def rank (l : List (String × ℚ)) : List LeaderboardEntryResult :=
  mapWithIndex (rankEntry l.length (topAmount l)) 0 (sortDesc l)

end Destiny

namespace Destiny

/-! ### Helper lemmas -/

theorem length_mapWithIndex {α β : Type} (f : ℕ → α → β) :
    ∀ (i : ℕ) (l : List α), (mapWithIndex f i l).length = l.length
  | _, [] => rfl
  | i, _ :: xs => congrArg Nat.succ (length_mapWithIndex f (i + 1) xs)

theorem get_mapWithIndex {α β : Type} (f : ℕ → α → β) :
    ∀ (i : ℕ) (l : List α) (j : ℕ) (h : j < (mapWithIndex f i l).length)
      (h' : j < l.length),
      (mapWithIndex f i l).get ⟨j, h⟩ = f (i + j) (l.get ⟨j, h'⟩)
  | _, [], j, h, h' => absurd h' (Nat.not_lt_zero j)
  | i, x :: xs, 0, _, _ => by simp [mapWithIndex]
  | i, x :: xs, j + 1, h, h' => by
    have := get_mapWithIndex f (i + 1) xs j
      (Nat.lt_of_succ_lt_succ (by simpa [mapWithIndex] using h))
      (Nat.lt_of_succ_lt_succ h')
    simpa [mapWithIndex, Nat.add_assoc, Nat.add_comm 1 j] using this

theorem length_sortDesc (l : List (String × ℚ)) :
    (sortDesc l).length = l.length :=
  (List.perm_insertionSort amountDesc l).length_eq

theorem rank_length (l : List (String × ℚ)) :
    (rank l).length = l.length := by
  rw [rank, length_mapWithIndex, length_sortDesc]

theorem sortDesc_sorted (l : List (String × ℚ)) :
    List.Sorted amountDesc (sortDesc l) :=
  List.sorted_insertionSort amountDesc l

/-- The entry at position `i` of `rank l`, expressed by the spec formulas
applied to the pair at position `i` of the sorted input. -/
theorem rank_get (l : List (String × ℚ)) (i : ℕ) (h : i < (rank l).length)
    (h' : i < (sortDesc l).length) :
    (rank l).get ⟨i, h⟩ =
      rankEntry l.length (topAmount l) i ((sortDesc l).get ⟨i, h'⟩) := by
  have := get_mapWithIndex (rankEntry l.length (topAmount l)) 0 (sortDesc l) i
    (by simpa [rank] using h) h'
  simpa [rank] using this

/-- Amounts are sorted descending: at positions `i ≤ j` of the sorted
input, the amount at `j` is at most the amount at `i`. -/
theorem sortDesc_amount_le (l : List (String × ℚ)) (i j : ℕ)
    (hi : i < (sortDesc l).length) (hj : j < (sortDesc l).length)
    (hij : i ≤ j) :
    ((sortDesc l).get ⟨j, hj⟩).2 ≤ ((sortDesc l).get ⟨i, hi⟩).2 := by
  rcases Nat.lt_or_ge i j with hlt | hge
  · have hp := (List.pairwise_iff_get).1 (sortDesc_sorted l) ⟨i, hi⟩ ⟨j, hj⟩ hlt
    exact hp
  · have : i = j := Nat.le_antisymm hij hge
    subst this
    exact le_rfl

/-- The first sorted amount is `topAmount`. -/
theorem sortDesc_get_zero_amount (l : List (String × ℚ))
    (h : 0 < (sortDesc l).length) :
    ((sortDesc l).get ⟨0, h⟩).2 = topAmount l := by
  have h0 : (sortDesc l).head? = some ((sortDesc l).get ⟨0, h⟩) := by
    rw [List.head?_eq_getElem?, List.get_eq_getElem]
    exact List.getElem?_eq_getElem h
  rw [topAmount, h0]
  rfl

/-- The standing fields produced by `mapWithIndex (rankEntry n top)` are
the consecutive integers starting at `i + 1`. -/
theorem map_standing_mapWithIndex (n : ℕ) (top : ℚ) :
    ∀ (i : ℕ) (m : List (String × ℚ)),
      (mapWithIndex (rankEntry n top) i m).map
          (fun e => e.standing) = List.range' (i + 1) m.length
  | _, [] => rfl
  | i, p :: m => by
    have := map_standing_mapWithIndex n top (i + 1) m
    simp [mapWithIndex, rankEntry, List.range'_succ, this]

/-- Inserting a pair into a list commutes with filtering on an exact
amount: skipped elements have strictly larger amounts, so they never share
the amount of the inserted pair. -/
theorem filter_orderedInsert_amount (a : ℚ) (p : String × ℚ) :
    ∀ m : List (String × ℚ),
      (List.orderedInsert amountDesc p m).filter (fun q => q.2 = a) =
        ((p :: m).filter (fun q => q.2 = a))
  | [] => rfl
  | b :: m => by
    by_cases hb : amountDesc p b
    · simp [List.orderedInsert, hb]
    · have hba : ¬ b.2 = a ∨ ¬ p.2 = a := by
        by_cases hpa : p.2 = a
        · left
          intro hba
          exact hb (le_of_eq (hba.trans hpa.symm))
        · right; exact hpa
      have ih := filter_orderedInsert_amount a p m
      rcases hba with hba | hpa
      · by_cases hpa : p.2 = a
        · simp [List.orderedInsert, hb, List.filter_cons, hba, hpa, ih]
        · simp [List.orderedInsert, hb, List.filter_cons, hba, hpa, ih]
      · by_cases hba : b.2 = a
        · simp [List.orderedInsert, hb, List.filter_cons, hba, hpa, ih]
        · simp [List.orderedInsert, hb, List.filter_cons, hba, hpa, ih]

/-- Stability of the descending sort: filtering the sorted list on any
exact amount returns those pairs in their input order. -/
theorem filter_sortDesc (a : ℚ) :
    ∀ l : List (String × ℚ),
      (sortDesc l).filter (fun q => q.2 = a) = l.filter (fun q => q.2 = a)
  | [] => rfl
  | p :: l => by
    have ih := filter_sortDesc a l
    have h := filter_orderedInsert_amount a p (sortDesc l)
    calc (sortDesc (p :: l)).filter (fun q => q.2 = a)
        = (List.orderedInsert amountDesc p (sortDesc l)).filter
            (fun q => q.2 = a) := by
          simp only [sortDesc, List.insertionSort]
      _ = (p :: sortDesc l).filter (fun q => q.2 = a) := h
      _ = (p :: l).filter (fun q => q.2 = a) := by
          rw [List.filter_cons, List.filter_cons, ih]

/-- Filtering ranked entries on an exact amount and projecting the display
names agrees with doing the same on the underlying pair list. -/
theorem filter_map_name_mapWithIndex (n : ℕ) (top : ℚ) (a : ℚ) :
    ∀ (i : ℕ) (m : List (String × ℚ)),
      ((mapWithIndex (rankEntry n top) i m).filter
          (fun e => e.amount = a)).map (fun e => e.display_name) =
        (m.filter (fun q => q.2 = a)).map (fun q => q.1)
  | _, [] => rfl
  | i, p :: m => by
    have ih := filter_map_name_mapWithIndex n top a (i + 1) m
    by_cases hpa : p.2 = a
    · simp [mapWithIndex, List.filter_cons, rankEntry, hpa, ih]
    · simp [mapWithIndex, List.filter_cons, rankEntry, hpa, ih]

end Destiny

namespace Destiny

/-- C1: for every category fetch (titles and raids), if the fetch fails the
value returned to the caller is the empty list, never an error; both
operations are total functions into `List LeaderboardEntryResult`. -/
theorem fail_soft_empty {σ : Type} (sink : DbErr → σ → σ) (e : DbErr) (s : σ) :
    (titles sink (Except.error e) s).1 = [] ∧
    (raids sink (Except.error e) s).1 = [] :=
  ⟨rfl, rfl⟩

/-- C8: the error sink is invoked exactly once when the fetch fails and
zero times when it succeeds, and the sink's behaviour (including any
failure of its own, i.e. any two different sinks or sink states) never
changes the list returned to the caller. -/
theorem sink_once_and_independent (e : DbErr) (q : List LeaderboardEntryResult)
    (n : ℕ) :
    (titles countingSink (Except.error e) n).2 = n + 1 ∧
    (titles countingSink (Except.ok q) n).2 = n ∧
    (raids countingSink (Except.error e) n).2 = n + 1 ∧
    (raids countingSink (Except.ok q) n).2 = n ∧
    (∀ (σ₁ σ₂ : Type) (sink₁ : DbErr → σ₁ → σ₁) (sink₂ : DbErr → σ₂ → σ₂)
        (s₁ : σ₁) (s₂ : σ₂) (fetch : FetchOutcome),
      (titles sink₁ fetch s₁).1 = (titles sink₂ fetch s₂).1 ∧
      (raids sink₁ fetch s₁).1 = (raids sink₂ fetch s₂).1) := by
  refine ⟨rfl, rfl, rfl, rfl, ?_⟩
  intro σ₁ σ₂ sink₁ sink₂ s₁ s₂ fetch
  cases fetch <;> exact ⟨rfl, rfl⟩

/-- C9: on a successful fetch, `titles` and `raids` return the fetched row
sequence verbatim — same entries, same order — performing no sorting and no
recomputation of any field. -/
theorem success_verbatim {σ : Type} (sink : DbErr → σ → σ)
    (q : List LeaderboardEntryResult) (s : σ) :
    (titles sink (Except.ok q) s).1 = q ∧
    (raids sink (Except.ok q) s).1 = q :=
  ⟨rfl, rfl⟩

/-- C10: `titles` and `raids` are behaviourally equivalent up to the query
executed: as functions of the fetch outcome (and sink and sink state) they
are the same function. -/
theorem titles_raids_equiv {σ : Type} (sink : DbErr → σ → σ)
    (fetch : FetchOutcome) (s : σ) :
    titles sink fetch s = raids sink fetch s := by
  cases fetch <;> rfl

/-- C2: the output entry at zero-based sorted position `i` over `n = l.length`
entries has `standing = i + 1`,
`percent_distance = (amount / top) * 100` when `top > 0` (else `0`), and
`percent_ranking = ((n - i) / n) * 100`, where `top` is the amount of the
first entry after the descending sort. -/
theorem rank_formulas (l : List (String × ℚ)) (i : ℕ)
    (h : i < (rank l).length) :
    ((rank l).get ⟨i, h⟩).standing = i + 1 ∧
    ((rank l).get ⟨i, h⟩).percent_distance =
      (if 0 < topAmount l
        then ((rank l).get ⟨i, h⟩).amount / topAmount l * 100 else 0) ∧
    ((rank l).get ⟨i, h⟩).percent_ranking =
      ((l.length : ℚ) - (i : ℚ)) / (l.length : ℚ) * 100 := by
  have h' : i < (sortDesc l).length := by
    rw [length_sortDesc]
    rw [rank_length] at h
    exact h
  rw [rank_get l i h h']
  exact ⟨rfl, rfl, rfl⟩

/-- Witness for C2 at the concrete input `[("Alice", 100), ("Bob", 50)]`
and position `i = 1`. -/
theorem rank_formulas_witness :
    ((rank [("Alice", (100:ℚ)), ("Bob", (50:ℚ))]).get
        ⟨1, by decide⟩).standing = 1 + 1 ∧
    ((rank [("Alice", (100:ℚ)), ("Bob", (50:ℚ))]).get
        ⟨1, by decide⟩).percent_distance =
      (if 0 < topAmount [("Alice", (100:ℚ)), ("Bob", (50:ℚ))]
        then ((rank [("Alice", (100:ℚ)), ("Bob", (50:ℚ))]).get
            ⟨1, by decide⟩).amount /
          topAmount [("Alice", (100:ℚ)), ("Bob", (50:ℚ))] * 100 else 0) ∧
    ((rank [("Alice", (100:ℚ)), ("Bob", (50:ℚ))]).get
        ⟨1, by decide⟩).percent_ranking =
      ((([("Alice", (100:ℚ)), ("Bob", (50:ℚ))] :
          List (String × ℚ)).length : ℚ) - ((1:ℕ) : ℚ)) /
        (([("Alice", (100:ℚ)), ("Bob", (50:ℚ))] :
          List (String × ℚ)).length : ℚ) * 100 :=
  rank_formulas [("Alice", (100:ℚ)), ("Bob", (50:ℚ))] 1 (by decide)

/-- C3: for every non-empty input and every amount value, the output is
sorted descending by amount, ties keep their input order (filtering on any
exact amount yields the names in input order), and the standing fields are
exactly `1..n` in order. -/
theorem rank_sorted_and_standing (l : List (String × ℚ)) (a : ℚ)
    (hne : l ≠ []) :
    List.Sorted
        (fun d e : LeaderboardEntryResult => e.amount ≤ d.amount) (rank l) ∧
    (rank l).map (fun e => e.standing) = List.range' 1 l.length ∧
    ((rank l).filter (fun e => e.amount = a)).map
        (fun e => e.display_name) =
      (l.filter (fun q => q.2 = a)).map (fun q => q.1) := by
  refine ⟨?_, ?_, ?_⟩
  · rw [List.Sorted, List.pairwise_iff_get]
    intro i j hij
    have hi' : i.1 < (sortDesc l).length := by
      rw [length_sortDesc, ← rank_length]
      exact i.2
    have hj' : j.1 < (sortDesc l).length := by
      rw [length_sortDesc, ← rank_length]
      exact j.2
    have e1 : (rank l).get i =
        rankEntry l.length (topAmount l) i.1 ((sortDesc l).get ⟨i.1, hi'⟩) :=
      rank_get l i.1 i.2 hi'
    have e2 : (rank l).get j =
        rankEntry l.length (topAmount l) j.1 ((sortDesc l).get ⟨j.1, hj'⟩) :=
      rank_get l j.1 j.2 hj'
    rw [e1, e2]
    exact sortDesc_amount_le l i.1 j.1 hi' hj' (le_of_lt hij)
  · have h := map_standing_mapWithIndex l.length (topAmount l) 0 (sortDesc l)
    simpa [rank, length_sortDesc] using h
  · have h := filter_map_name_mapWithIndex l.length (topAmount l) a 0
      (sortDesc l)
    rw [rank, h, filter_sortDesc]

/-- Witness for C3 at the concrete input
`[("Alice", 10), ("Bob", 10), ("Cara", 25)]` with amount value `10`
(a tie between Alice and Bob, kept in input order). -/
theorem rank_sorted_and_standing_witness :
    List.Sorted
        (fun d e : LeaderboardEntryResult => e.amount ≤ d.amount)
        (rank [("Alice", (10:ℚ)), ("Bob", (10:ℚ)), ("Cara", (25:ℚ))]) ∧
    (rank [("Alice", (10:ℚ)), ("Bob", (10:ℚ)), ("Cara", (25:ℚ))]).map
        (fun e => e.standing) =
      List.range' 1 ([("Alice", (10:ℚ)), ("Bob", (10:ℚ)),
        ("Cara", (25:ℚ))] : List (String × ℚ)).length ∧
    ((rank [("Alice", (10:ℚ)), ("Bob", (10:ℚ)), ("Cara", (25:ℚ))]).filter
        (fun e => e.amount = (10:ℚ))).map (fun e => e.display_name) =
      (([("Alice", (10:ℚ)), ("Bob", (10:ℚ)), ("Cara", (25:ℚ))] :
          List (String × ℚ)).filter (fun q => q.2 = (10:ℚ))).map
        (fun q => q.1) :=
  rank_sorted_and_standing
    [("Alice", (10:ℚ)), ("Bob", (10:ℚ)), ("Cara", (25:ℚ))] 10 (by decide)

/-- C4 counterexample: on the non-empty input `[("a", 0)]` the entry with
`standing = 1` has `percent_distance = 0`, not `100`, because the top
amount is `0` and the ranking formula then yields `0` (the spec's own
zero-amount open question).  So the claim as stated is false. -/
theorem leader_norm_counterexample :
    ((rank [("a", (0:ℚ))]).get ⟨0, by decide⟩).standing = 1 ∧
    ((rank [("a", (0:ℚ))]).get ⟨0, by decide⟩).percent_distance = 0 ∧
    ¬ ((rank [("a", (0:ℚ))]).get ⟨0, by decide⟩).percent_distance = 100 :=
  by decide

/-- C4 amended: for every non-empty input whose top sorted amount is
positive (i.e. not all amounts are zero or negative), the output entry with
`standing = 1` has `percent_distance = 100` and `percent_ranking = 100`. -/
theorem leader_norm_amended (l : List (String × ℚ)) (hne : l ≠ [])
    (htop : 0 < topAmount l) (h : 0 < (rank l).length) :
    ((rank l).get ⟨0, h⟩).standing = 1 ∧
    ((rank l).get ⟨0, h⟩).percent_distance = 100 ∧
    ((rank l).get ⟨0, h⟩).percent_ranking = 100 := by
  have h' : 0 < (sortDesc l).length := by
    rw [length_sortDesc, ← rank_length]
    exact h
  have hn : (0:ℚ) < (l.length : ℚ) := by
    have h0 : 0 < l.length := by
      rw [← rank_length]
      exact h
    exact_mod_cast h0
  have hamt : ((sortDesc l).get ⟨0, h'⟩).2 = topAmount l :=
    sortDesc_get_zero_amount l h'
  rw [rank_get l 0 h h']
  refine ⟨rfl, ?_, ?_⟩
  · simp only [rankEntry, if_pos htop, hamt]
    rw [div_self (ne_of_gt htop)]
    norm_num
  · simp only [rankEntry, Nat.cast_zero, sub_zero]
    rw [div_self (ne_of_gt hn)]
    norm_num

/-- Witness for the amended C4 at the concrete input `[("Alice", 100)]`. -/
theorem leader_norm_amended_witness :
    ((rank [("Alice", (100:ℚ))]).get ⟨0, by decide⟩).standing = 1 ∧
    ((rank [("Alice", (100:ℚ))]).get ⟨0, by decide⟩).percent_distance
      = 100 ∧
    ((rank [("Alice", (100:ℚ))]).get ⟨0, by decide⟩).percent_ranking
      = 100 :=
  leader_norm_amended [("Alice", (100:ℚ))] (by decide) (by decide)
    (by decide)

/-- C5: in every output sequence, `percent_distance` and `percent_ranking`
are non-increasing as `standing` (i.e. the position) increases. -/
theorem percent_monotone (l : List (String × ℚ)) (i j : ℕ)
    (hi : i < (rank l).length) (hj : j < (rank l).length) (hij : i ≤ j) :
    ((rank l).get ⟨j, hj⟩).percent_distance ≤
      ((rank l).get ⟨i, hi⟩).percent_distance ∧
    ((rank l).get ⟨j, hj⟩).percent_ranking ≤
      ((rank l).get ⟨i, hi⟩).percent_ranking := by
  have hi' : i < (sortDesc l).length := by
    rw [length_sortDesc, ← rank_length]
    exact hi
  have hj' : j < (sortDesc l).length := by
    rw [length_sortDesc, ← rank_length]
    exact hj
  have hn : (0:ℚ) < (l.length : ℚ) := by
    have h0 : 0 < l.length := Nat.lt_of_le_of_lt (Nat.zero_le i) (by
      rw [← rank_length]
      exact hi)
    exact_mod_cast h0
  rw [rank_get l i hi hi', rank_get l j hj hj']
  constructor
  · by_cases htop : 0 < topAmount l
    · simp only [rankEntry, if_pos htop]
      have hle := sortDesc_amount_le l i j hi' hj' hij
      exact mul_le_mul_of_nonneg_right
        (div_le_div_of_nonneg_right hle (le_of_lt htop)) (by norm_num)
    · simp only [rankEntry, if_neg htop]
      exact le_rfl
  · simp only [rankEntry]
    have hsub : (l.length : ℚ) - (j : ℚ) ≤ (l.length : ℚ) - (i : ℚ) := by
      have hc : (i : ℚ) ≤ (j : ℚ) := by exact_mod_cast hij
      linarith
    exact mul_le_mul_of_nonneg_right
      (div_le_div_of_nonneg_right hsub (le_of_lt hn)) (by norm_num)

/-- Witness for C5 at the concrete input `[("Alice", 100), ("Bob", 50)]`
and positions `i = 0`, `j = 1`. -/
theorem percent_monotone_witness :
    ((rank [("Alice", (100:ℚ)), ("Bob", (50:ℚ))]).get
        ⟨1, by decide⟩).percent_distance ≤
      ((rank [("Alice", (100:ℚ)), ("Bob", (50:ℚ))]).get
        ⟨0, by decide⟩).percent_distance ∧
    ((rank [("Alice", (100:ℚ)), ("Bob", (50:ℚ))]).get
        ⟨1, by decide⟩).percent_ranking ≤
      ((rank [("Alice", (100:ℚ)), ("Bob", (50:ℚ))]).get
        ⟨0, by decide⟩).percent_ranking :=
  percent_monotone [("Alice", (100:ℚ)), ("Bob", (50:ℚ))] 0 1
    (by decide) (by decide) (by decide)

/-- C6: ranking the empty input yields the empty output, and the
top-amount divisor is `0` and consumed by no entry (no quotient is ever
formed on this path). -/
theorem rank_empty :
    rank ([] : List (String × ℚ)) = [] ∧
    topAmount ([] : List (String × ℚ)) = 0 :=
  ⟨rfl, rfl⟩

/-- C7: the output sequence has exactly as many entries as the input. -/
theorem length_preservation (l : List (String × ℚ)) :
    (rank l).length = l.length :=
  rank_length l

end Destiny
